import Mathlib

/-!
Verification of the package-validation core of `pkg/commands/compute/validate.go`
(the `validate` function and its collaborators), shallowly embedded in Lean.

The embedding models:
* an archive entry as the name the loop compares against — `f.Name()`, which
  archiver v3 derives as `path.Base` of the tar header path
  (`tar.Header.FileInfo().Name()`) — together with whether closing it
  succeeds; `pathBase` / `entryOfHeader` model that derivation;
* the entry stream as a finite list of entries followed by a terminator
  (clean end-of-stream, or a mid-stream read error);
* opening the path as an `OpenResult` (open failure, unarchive failure,
  or a usable archive);
* the optional per-entry validator hook as `Option (Entry → Option String)`
  (`some msg` is a hook error carrying its message);
* the required-file tracker as the association list
  `[("fastly.toml", false), ("main.wasm", false)]`, in the insertion order of
  the Go map literal.  Go map iteration order is unspecified, so the final
  required-file check is also given in a variant parameterised by an explicit
  iteration order (`checkRequiredOrd` / `validateOrd`).

The streaming loop additionally records a trace of the entry names read and
the entry names on which `Close` was invoked, so that temporal claims
("no entry after the k-th is read", "the current entry is closed") are
statable.
-/

namespace FastlyValidate

/-- One archive entry as seen by the streaming loop.  `name` is what
`f.Name()` returns for the `archiver.File` `f`: archiver v3 builds it from
`tar.Header.FileInfo()`, whose `Name()` is `path.Base` of the header path —
a base name, never a slash-qualified path (see `entryOfHeader`).  `closeOk`
is whether the entry's `Close()` call succeeds. -/
structure Entry where
  name : String
  closeOk : Bool
deriving DecidableEq, Repr

/-- How the entry stream ends: clean end-of-stream (`io.EOF`) or a
mid-stream read error (corrupt / truncated archive). -/
inductive Terminator where
  | eof
  | readErr
deriving DecidableEq, Repr

/-- An opened archive: the finite sequence of entries the stream yields,
then its terminator. -/
structure Archive where
  entries : List Entry
  term : Terminator
deriving DecidableEq, Repr

/-- Result of `os.Open` followed by `tar.Open`: the path may fail to open,
the stream may fail to unarchive, or an archive is obtained. -/
inductive OpenResult where
  | openFail
  | unarchiveFail
  | ok (a : Archive)
deriving DecidableEq, Repr

/-- The error taxonomy of `validate` (§7 of the design): each `return`
statement of the Go function produces one of these. -/
inductive VError where
  | openError
  | unarchiveError
  | readError
  | closeError
  | validatorError (msg : String)
  | missingRequiredFileError (name : String)
deriving DecidableEq, Repr

/-- The optional per-entry hook (`FileValidator` in the source):
`none` means the entry is accepted, `some msg` is the hook's error. -/
abbrev FileValidator := Entry → Option String

/-- The required-file tracker: required name ↦ observed flag. -/
abbrev Tracker := List (String × Bool)

/-- The `files` map literal of `validate`, in insertion order. -/
def requiredFiles : Tracker :=
  [("fastly.toml", false), ("main.wasm", false)]

/-- `for k := range files { if k == f.Name() { files[k] = true } }`:
mark a streamed name observed, by exact string equality on the full name. -/
def markObserved (files : Tracker) (name : String) : Tracker :=
  files.map fun kv => if kv.1 = name then (kv.1, true) else kv

/-- `if fileValidator != nil { err = fileValidator(f) }`: the hook's verdict
on an entry, with a `nil` hook accepting implicitly. -/
def hookOf (hook : Option FileValidator) (f : Entry) : Option String :=
  match hook with
  | some v => v f
  | none => none

/-- The state in which the streaming loop stops: the tracker, the trace of
names read from the stream, the trace of names on which `Close` was invoked,
and the loop's error, if any (`none` means the loop broke at end-of-stream). -/
structure LoopState where
  files : Tracker
  reads : List String
  closes : List String
  err : Option VError
deriving DecidableEq, Repr

/-- The `for { f, err := tar.Read(); ... }` loop of `validate`: read an entry,
mark it in the tracker, run the hook (a hook error closes the entry and
aborts, discarding the close result), then close the entry (a close error
aborts).  End-of-stream breaks the loop; a read error aborts. -/
def streamLoop (hook : Option FileValidator) :
    List Entry → Terminator → Tracker → List String → List String → LoopState
  | [], .eof, files, reads, closes => ⟨files, reads, closes, none⟩
  | [], .readErr, files, reads, closes => ⟨files, reads, closes, some .readError⟩
  | f :: rest, t, files, reads, closes =>
    let files := markObserved files f.name
    let reads := reads ++ [f.name]
    match hookOf hook f with
    | some msg => ⟨files, reads, closes ++ [f.name], some (.validatorError msg)⟩
    | none =>
      if f.closeOk then
        streamLoop hook rest t files reads (closes ++ [f.name])
      else
        ⟨files, reads, closes ++ [f.name], some .closeError⟩

/-- `for k, found := range files { if !found { return ... } }`: the
end-of-stream required-file check, iterating the tracker in insertion
order. -/
def checkRequired : Tracker → Option VError
  | [] => none
  | (k, found) :: rest =>
    if found then checkRequired rest
    else some (.missingRequiredFileError k)

/-- The end-of-stream required-file check iterating the map keys in an
explicit order, modelling Go's unspecified map iteration order. -/
def checkRequiredOrd (files : Tracker) : List String → Option VError
  | [] => none
  | k :: ks =>
    if (files.lookup k).getD true then checkRequiredOrd files ks
    else some (.missingRequiredFileError k)

/-- The result of one `validate` call, with the tracker and traces exposed. -/
structure RunResult where
  res : Option VError
  files : Tracker
  reads : List String
  closes : List String
deriving DecidableEq, Repr

/-- `validate(path, fileValidator)`, with the path's opening outcome made
explicit: open failure → `OpenError`; unarchive failure → `UnarchiveError`;
otherwise run the streaming loop, then, only if the loop broke cleanly at
end-of-stream, the required-file check.  `res = none` is success. -/
def validateRun (src : OpenResult) (hook : Option FileValidator) : RunResult :=
  match src with
  | .openFail => ⟨some .openError, requiredFiles, [], []⟩
  | .unarchiveFail => ⟨some .unarchiveError, requiredFiles, [], []⟩
  | .ok a =>
    let s := streamLoop hook a.entries a.term requiredFiles [] []
    match s.err with
    | some e => ⟨some e, s.files, s.reads, s.closes⟩
    | none => ⟨checkRequired s.files, s.files, s.reads, s.closes⟩

/-- The overall outcome of `validate`: `none` is success. -/
def validate (src : OpenResult) (hook : Option FileValidator) : Option VError :=
  (validateRun src hook).res

/-- `validate` with the final required-file check iterating the map keys in
the given order, modelling Go's unspecified map iteration order. -/
def validateOrd (src : OpenResult) (hook : Option FileValidator)
    (order : List String) : Option VError :=
  match src with
  | .openFail => some .openError
  | .unarchiveFail => some .unarchiveError
  | .ok a =>
    let s := streamLoop hook a.entries a.term requiredFiles [] []
    match s.err with
    | some e => some e
    | none => checkRequiredOrd s.files order

/-- The names of an archive's entries, in stream order. -/
def entryNames (a : Archive) : List String :=
  a.entries.map Entry.name

/-- The required entry names, in the insertion order of the map literal. -/
def requiredNames : List String :=
  ["fastly.toml", "main.wasm"]

/-- A well-formed archive: the stream reaches end-of-stream cleanly and
every entry closes cleanly. -/
def WellFormed (a : Archive) : Prop :=
  a.term = .eof ∧ ∀ f ∈ a.entries, f.closeOk = true

instance (a : Archive) : Decidable (WellFormed a) := by
  unfold WellFormed; infer_instance

/-- The error kind, forgetting the carried message or name. -/
inductive ErrKind where
  | openE | unarchiveE | readE | closeE | validatorE | missingE
deriving DecidableEq, Repr

/-- Classify an error by its kind. -/
def errKind : VError → ErrKind
  | .openError => .openE
  | .unarchiveError => .unarchiveE
  | .readError => .readE
  | .closeError => .closeE
  | .validatorError _ => .validatorE
  | .missingRequiredFileError _ => .missingE

/-- The kind of an outcome (`none` for success). -/
def resKind (r : Option VError) : Option ErrKind :=
  r.map errKind

/-- An entry the streaming loop processes without aborting: the hook (if any)
accepts it and its close succeeds. -/
def Passes (hook : Option FileValidator) (f : Entry) : Prop :=
  hookOf hook f = none ∧ f.closeOk = true

instance (hook : Option FileValidator) (f : Entry) : Decidable (Passes hook f) := by
  unfold Passes; infer_instance

/-- The tracker obtained by marking each of a list of entries in turn. -/
def foldMark (files : Tracker) (es : List Entry) : Tracker :=
  es.foldl (fun fs g => markObserved fs g.name) files

/-- Whether some entry of the list has exactly the given name. -/
def observedIn (es : List Entry) (k : String) : Bool :=
  es.any fun g => g.name == k

/-- Go's `path.Base`, as used by `tar.Header.FileInfo().Name()` for regular
file entries: strip trailing slashes, keep the part after the last slash,
returning `"."` for the empty path and `"/"` for an all-slash path. -/
def pathBase (p : String) : String :=
  if p = "" then "."
  else
    let stripped := (p.toList.reverse.dropWhile (fun c => c = '/')).reverse
    let base := (stripped.reverse.takeWhile (fun c => c ≠ '/')).reverse
    if base = [] then "/" else String.mk base

/-- The `archiver.File` that `tar.Read()` yields for a tar header with the
given full path name: its `Name()` is the base name of the header path. -/
def entryOfHeader (headerPath : String) (closeOk : Bool) : Entry :=
  ⟨pathBase headerPath, closeOk⟩

theorem observedIn_iff (es : List Entry) (k : String) :
    observedIn es k = true ↔ k ∈ es.map Entry.name := by
  simp only [observedIn, List.any_eq_true, beq_iff_eq, List.mem_map]

theorem foldMark_cons (files : Tracker) (g : Entry) (es : List Entry) :
    foldMark files (g :: es) = foldMark (markObserved files g.name) es := rfl

/-- Marking one name on the two-key tracker. -/
theorem markObserved_pair (b1 b2 : Bool) (n : String) :
    markObserved [("fastly.toml", b1), ("main.wasm", b2)] n =
      [("fastly.toml", b1 || (n == "fastly.toml")),
       ("main.wasm", b2 || (n == "main.wasm"))] := by
  by_cases h1 : "fastly.toml" = n <;> by_cases h2 : "main.wasm" = n <;>
    simp [markObserved, h1, h2, eq_comm (a := n)]

/-- Marking a two-key tracker entry by entry sets each flag to its old value
or-ed with whether the key's exact name occurs among the entries. -/
theorem foldMark_pair (es : List Entry) (b1 b2 : Bool) :
    foldMark [("fastly.toml", b1), ("main.wasm", b2)] es =
      [("fastly.toml", b1 || observedIn es "fastly.toml"),
       ("main.wasm", b2 || observedIn es "main.wasm")] := by
  induction es generalizing b1 b2 with
  | nil => simp [foldMark, observedIn]
  | cons g es ih =>
    rw [foldMark_cons, markObserved_pair, ih]
    simp [observedIn, List.any_cons, Bool.or_assoc]

/-- A prefix of entries that all pass is consumed by the loop, marking each
name and appending each name to both traces. -/
theorem streamLoop_append_pass (hook : Option FileValidator) (p : List Entry)
    (hp : ∀ g ∈ p, Passes hook g) (tail : List Entry) (t : Terminator)
    (files : Tracker) (reads closes : List String) :
    streamLoop hook (p ++ tail) t files reads closes =
      streamLoop hook tail t (foldMark files p)
        (reads ++ p.map Entry.name) (closes ++ p.map Entry.name) := by
  induction p generalizing files reads closes with
  | nil => simp [foldMark]
  | cons g p ih =>
    have hg : Passes hook g := hp g (List.mem_cons_self g p)
    have hrest : ∀ g ∈ p, Passes hook g := fun x hx => hp x (List.mem_cons_of_mem g hx)
    simp only [List.cons_append, streamLoop, hg.1, hg.2, if_pos, List.append_eq]
    rw [ih hrest]
    simp [foldMark_cons, List.append_assoc]

/-- The loop never produces a missing-required-file error: that error can
only arise from the end-of-stream check. -/
theorem streamLoop_err_ne_missing (hook : Option FileValidator)
    (es : List Entry) (t : Terminator) (files : Tracker)
    (reads closes : List String) (k : String) :
    (streamLoop hook es t files reads closes).err ≠
      some (.missingRequiredFileError k) := by
  induction es generalizing files reads closes with
  | nil => cases t <;> simp [streamLoop]
  | cons g es ih =>
    simp only [streamLoop]
    cases hg : hookOf hook g with
    | some msg => simp
    | none =>
      by_cases hc : g.closeOk = true
      · simp only [hc, if_pos]; exact ih _ _ _
      · simp [hc]

/-- The loop breaks with no error only at clean end-of-stream. -/
theorem streamLoop_err_none_eof (hook : Option FileValidator)
    (es : List Entry) (t : Terminator) (files : Tracker)
    (reads closes : List String)
    (h : (streamLoop hook es t files reads closes).err = none) : t = .eof := by
  induction es generalizing files reads closes with
  | nil =>
    cases t with
    | eof => rfl
    | readErr => simp [streamLoop] at h
  | cons g es ih =>
    simp only [streamLoop] at h
    cases hg : hookOf hook g with
    | some msg => rw [hg] at h; simp at h
    | none =>
      rw [hg] at h
      by_cases hc : g.closeOk = true
      · rw [if_pos hc] at h; exact ih _ _ _ h
      · rw [if_neg hc] at h; simp at h

/-- A hook that accepts every entry leaves the run of the loop unchanged
relative to running with no hook at all. -/
theorem streamLoop_trivial_hook (v : FileValidator) (hv : ∀ f, v f = none)
    (es : List Entry) (t : Terminator) (files : Tracker)
    (reads closes : List String) :
    streamLoop (some v) es t files reads closes =
      streamLoop none es t files reads closes := by
  induction es generalizing files reads closes with
  | nil => cases t <;> rfl
  | cons g es ih =>
    simp only [streamLoop, hookOf, hv g]
    by_cases hc : g.closeOk = true
    · simp only [hc, if_pos]; exact ih _ _ _
    · simp [hc]

/-- `checkRequiredOrd` succeeds exactly when every key it iterates is
observed. -/
theorem checkRequiredOrd_eq_none_iff (files : Tracker) (o : List String) :
    checkRequiredOrd files o = none ↔
      ∀ k ∈ o, (files.lookup k).getD true = true := by
  induction o with
  | nil => simp [checkRequiredOrd]
  | cons k ks ih =>
    by_cases h : (files.lookup k).getD true = true <;>
      simp [checkRequiredOrd, h, ih]

/-- The kind of `checkRequiredOrd`'s outcome depends only on whether some
iterated key is unobserved, not on the iteration order. -/
theorem resKind_checkRequiredOrd (files : Tracker) (o : List String) :
    resKind (checkRequiredOrd files o) =
      if ∀ k ∈ o, (files.lookup k).getD true = true then none
      else some .missingE := by
  induction o with
  | nil => simp [checkRequiredOrd, resKind]
  | cons k ks ih =>
    by_cases h : (files.lookup k).getD true = true
    · simp [checkRequiredOrd, h, ih]
    · simp [checkRequiredOrd, h, resKind, errKind]

/-- On a stream whose entries all pass and that ends cleanly, `validate`
runs the loop to completion and then the required-file check; all entries
are read and closed. -/
theorem validateRun_ok_pass (a : Archive) (hook : Option FileValidator)
    (heof : a.term = .eof) (hp : ∀ g ∈ a.entries, Passes hook g) :
    validateRun (.ok a) hook =
      ⟨checkRequired (foldMark requiredFiles a.entries),
       foldMark requiredFiles a.entries,
       a.entries.map Entry.name, a.entries.map Entry.name⟩ := by
  have h := streamLoop_append_pass hook a.entries hp [] a.term requiredFiles [] []
  rw [List.append_nil, heof] at h
  simp [validateRun, heof, h, streamLoop]

theorem foldMark_requiredFiles (es : List Entry) :
    foldMark requiredFiles es =
      [("fastly.toml", observedIn es "fastly.toml"),
       ("main.wasm", observedIn es "main.wasm")] := by
  rw [show requiredFiles = [("fastly.toml", false), ("main.wasm", false)] from rfl,
    foldMark_pair]
  simp

theorem checkRequired_pair (x1 x2 : Bool) :
    checkRequired [("fastly.toml", x1), ("main.wasm", x2)] =
      if x1 then
        (if x2 then none else some (.missingRequiredFileError "main.wasm"))
      else some (.missingRequiredFileError "fastly.toml") := by
  cases x1 <;> cases x2 <;> simp [checkRequired]

/-- C2: for every archive whose entry stream contains entries named exactly
`fastly.toml` and `main.wasm` — regardless of additional entries or of
entry order — `validate` with no validator hook returns success. -/
theorem validate_success_when_required_present (a : Archive)
    (hwf : WellFormed a)
    (h1 : "fastly.toml" ∈ entryNames a) (h2 : "main.wasm" ∈ entryNames a) :
    validate (.ok a) none = none := by
  have hp : ∀ g ∈ a.entries, Passes none g := fun g hg => ⟨rfl, hwf.2 g hg⟩
  rw [validate, validateRun_ok_pass a none hwf.1 hp]
  simp only [foldMark_requiredFiles, checkRequired_pair]
  rw [(observedIn_iff _ _).2 h1, (observedIn_iff _ _).2 h2]
  simp

/-- Witness for C2: an archive with both required entries, an extra
`README.md`, and the required entries out of the map's insertion order. -/
theorem validate_success_when_required_present_witness :
    validate (.ok ⟨[⟨"main.wasm", true⟩, ⟨"README.md", true⟩,
        ⟨"fastly.toml", true⟩], .eof⟩) none = none :=
  validate_success_when_required_present
    ⟨[⟨"main.wasm", true⟩, ⟨"README.md", true⟩, ⟨"fastly.toml", true⟩], .eof⟩
    (by decide) (by decide) (by decide)

/-- C4: evaluation of the code at the claim's own scenario, showing the code
contradicts the claim: for a tar entry stored at header path
`subdir/main.wasm`, the `f.Name()` the loop compares against is the base
name `main.wasm` (archiver v3 uses `tar.Header.FileInfo().Name()`, i.e.
`path.Base` of the header path), so the required name is marked observed
and the archive containing `subdir/main.wasm` and `fastly.toml` — with no
top-level `main.wasm` — validates successfully, instead of failing with
`main.wasm` reported missing as the claim and the spec require. -/
theorem validate_subdir_base_name_accepted :
    (entryOfHeader "subdir/main.wasm" true).name = "main.wasm" ∧
    validate (.ok ⟨[entryOfHeader "subdir/main.wasm" true,
        entryOfHeader "fastly.toml" true], .eof⟩) none = none ∧
    validate (.ok ⟨[entryOfHeader "subdir/main.wasm" true,
        entryOfHeader "fastly.toml" true], .eof⟩) none ≠
      some (.missingRequiredFileError "main.wasm") := by
  refine ⟨?_, ?_, ?_⟩ <;> decide

/-- C6: an open failure yields `OpenError` and an unarchive failure yields
`UnarchiveError`; in both cases the run's tracker is the initial
required-file map, in which every observed flag is false. -/
theorem validate_open_unarchive_failures (hook : Option FileValidator) :
    validateRun .openFail hook =
        ⟨some .openError, requiredFiles, [], []⟩ ∧
    validateRun .unarchiveFail hook =
        ⟨some .unarchiveError, requiredFiles, [], []⟩ ∧
    ∀ kv ∈ requiredFiles, kv.2 = false :=
  ⟨rfl, rfl, by decide⟩

/-- C7: a validator hook that succeeds on every entry yields a run identical
to running with no hook at all, on every opening outcome. -/
theorem validate_trivial_hook_eq_nil_hook (src : OpenResult)
    (v : FileValidator) (hv : ∀ f, v f = none) :
    validateRun src (some v) = validateRun src none := by
  cases src with
  | openFail => rfl
  | unarchiveFail => rfl
  | ok a => simp [validateRun, streamLoop_trivial_hook v hv]

/-- Witness for C7: the always-accepting hook on a concrete archive. -/
theorem validate_trivial_hook_eq_nil_hook_witness :
    validateRun (.ok ⟨[⟨"fastly.toml", true⟩], .eof⟩) (some fun _ => none) =
      validateRun (.ok ⟨[⟨"fastly.toml", true⟩], .eof⟩) none :=
  validate_trivial_hook_eq_nil_hook (.ok ⟨[⟨"fastly.toml", true⟩], .eof⟩)
    (fun _ => none) (fun _ => rfl)

/-- C1 counterexample: on an archive that streams to end-of-stream with both
required entries missing, the final tracker records both `fastly.toml` and
`main.wasm` unobserved, yet the returned error names only `fastly.toml` —
the missing name `main.wasm` is not reported, so not every missing name is
reported. -/
theorem validate_multiple_missing_reports_one_name :
    (validateRun (.ok ⟨[], .eof⟩) none).files =
        [("fastly.toml", false), ("main.wasm", false)] ∧
    validate (.ok ⟨[], .eof⟩) none =
        some (.missingRequiredFileError "fastly.toml") ∧
    validate (.ok ⟨[], .eof⟩) none ≠
        some (.missingRequiredFileError "main.wasm") := by
  refine ⟨rfl, rfl, ?_⟩
  decide

/-- C1 (amended): for every archive that streams to end-of-stream without
error but is missing at least one required entry name, `validate` fails with
a `MissingRequiredFileError` naming one missing required entry; when more
than one required entry is missing, only a single name is reported. -/
theorem validate_missing_reports_a_missing_name (a : Archive)
    (hook : Option FileValidator) (hwf : WellFormed a)
    (hpass : ∀ g ∈ a.entries, hookOf hook g = none)
    (hmiss : ∃ k ∈ requiredNames, k ∉ entryNames a) :
    ∃ m, validate (.ok a) hook = some (.missingRequiredFileError m) ∧
      m ∈ requiredNames ∧ m ∉ entryNames a := by
  have hp : ∀ g ∈ a.entries, Passes hook g :=
    fun g hg => ⟨hpass g hg, hwf.2 g hg⟩
  rw [validate, validateRun_ok_pass a hook hwf.1 hp]
  simp only [foldMark_requiredFiles, checkRequired_pair]
  cases h1 : observedIn a.entries "fastly.toml" with
  | false =>
    refine ⟨"fastly.toml", by simp, by simp [requiredNames], fun hmem => ?_⟩
    rw [(observedIn_iff _ _).2 hmem] at h1
    cases h1
  | true =>
    cases h2 : observedIn a.entries "main.wasm" with
    | false =>
      refine ⟨"main.wasm", by simp, by simp [requiredNames], fun hmem => ?_⟩
      rw [(observedIn_iff _ _).2 hmem] at h2
      cases h2
    | true =>
      exfalso
      obtain ⟨k, hk, hnk⟩ := hmiss
      simp only [requiredNames, List.mem_cons, List.mem_singleton,
        List.not_mem_nil, or_false] at hk
      cases hk with
      | inl hk =>
        subst hk
        exact hnk ((observedIn_iff _ _).1 h1)
      | inr hk =>
        subst hk
        exact hnk ((observedIn_iff _ _).1 h2)

/-- Witness for the amended C1: an archive containing only `fastly.toml`
fails naming the missing `main.wasm`. -/
theorem validate_missing_reports_a_missing_name_witness :
    ∃ m, validate (.ok ⟨[⟨"fastly.toml", true⟩], .eof⟩) none =
        some (.missingRequiredFileError m) ∧
      m ∈ requiredNames ∧ m ∉ entryNames ⟨[⟨"fastly.toml", true⟩], .eof⟩ :=
  validate_missing_reports_a_missing_name ⟨[⟨"fastly.toml", true⟩], .eof⟩
    none (by decide) (by decide) (by decide)

/-- C3: if a validator hook rejects the entry after a prefix of clean
entries, `validate` returns the hook's error as the overall outcome (not a
missing-file report), the rejected entry is the last one closed, and the
names read stop at the rejected entry, whatever entries or terminator
follow it in the stream. -/
theorem validate_hook_failure_aborts (p : List Entry) (f : Entry)
    (rest : List Entry) (t : Terminator) (v : FileValidator) (msg : String)
    (hp : ∀ g ∈ p, Passes (some v) g) (hf : v f = some msg) :
    validate (.ok ⟨p ++ f :: rest, t⟩) (some v) =
        some (.validatorError msg) ∧
    (validateRun (.ok ⟨p ++ f :: rest, t⟩) (some v)).reads =
        p.map Entry.name ++ [f.name] ∧
    (validateRun (.ok ⟨p ++ f :: rest, t⟩) (some v)).closes =
        p.map Entry.name ++ [f.name] := by
  have h := streamLoop_append_pass (some v) p hp (f :: rest) t
    requiredFiles [] []
  simp only [List.nil_append] at h
  have hstep : streamLoop (some v) (f :: rest) t
      (foldMark requiredFiles p) (p.map Entry.name) (p.map Entry.name) =
      ⟨markObserved (foldMark requiredFiles p) f.name,
       p.map Entry.name ++ [f.name], p.map Entry.name ++ [f.name],
       some (.validatorError msg)⟩ := by
    simp [streamLoop, hookOf, hf]
  refine ⟨?_, ?_, ?_⟩ <;> simp [validate, validateRun, h, hstep]

/-- Witness for C3: a hook rejecting the entry named `bad` aborts with the
hook's error even though `main.wasm` only appears later in the stream. -/
theorem validate_hook_failure_aborts_witness :
    validate
        (.ok ⟨[⟨"fastly.toml", true⟩, ⟨"bad", true⟩, ⟨"main.wasm", true⟩],
          .eof⟩)
        (some fun g => if g.name == "bad" then some "rejected" else none) =
      some (.validatorError "rejected") :=
  (validate_hook_failure_aborts [⟨"fastly.toml", true⟩] ⟨"bad", true⟩
    [⟨"main.wasm", true⟩] .eof
    (fun g => if g.name == "bad" then some "rejected" else none) "rejected"
    (by decide) (by decide)).1

/-- C9: if closing an entry fails after a prefix of clean entries, and the
hook (if any) accepted that entry, `validate` returns `CloseError` — not a
missing-file report — and the names read stop at that entry, whatever
entries or terminator follow it in the stream. -/
theorem validate_close_error_aborts (p : List Entry) (f : Entry)
    (rest : List Entry) (t : Terminator) (hook : Option FileValidator)
    (hp : ∀ g ∈ p, Passes hook g) (hf : hookOf hook f = none)
    (hc : f.closeOk = false) :
    validate (.ok ⟨p ++ f :: rest, t⟩) hook = some .closeError ∧
    (validateRun (.ok ⟨p ++ f :: rest, t⟩) hook).reads =
        p.map Entry.name ++ [f.name] := by
  have h := streamLoop_append_pass hook p hp (f :: rest) t
    requiredFiles [] []
  simp only [List.nil_append] at h
  have hstep : streamLoop hook (f :: rest) t
      (foldMark requiredFiles p) (p.map Entry.name) (p.map Entry.name) =
      ⟨markObserved (foldMark requiredFiles p) f.name,
       p.map Entry.name ++ [f.name], p.map Entry.name ++ [f.name],
       some .closeError⟩ := by
    simp [streamLoop, hf, hc]
  refine ⟨?_, ?_⟩ <;> simp [validate, validateRun, h, hstep]

/-- Witness for C9: a stream whose second entry fails to close aborts with
`CloseError` without reading the rest of the stream. -/
theorem validate_close_error_aborts_witness :
    validate
        (.ok ⟨[⟨"fastly.toml", true⟩, ⟨"main.wasm", false⟩,
          ⟨"README.md", true⟩], .eof⟩) none =
      some .closeError :=
  (validate_close_error_aborts [⟨"fastly.toml", true⟩] ⟨"main.wasm", false⟩
    [⟨"README.md", true⟩] .eof none (by decide) (by decide) (by decide)).1

/-- C10: when the hook rejects an entry whose close also fails, the close
failure is discarded: `validate` returns the hook's error and never a
`CloseError` for that entry. -/
theorem validate_hook_error_shadows_close_error (p : List Entry) (f : Entry)
    (rest : List Entry) (t : Terminator) (v : FileValidator) (msg : String)
    (hp : ∀ g ∈ p, Passes (some v) g) (hf : v f = some msg)
    (_hc : f.closeOk = false) :
    validate (.ok ⟨p ++ f :: rest, t⟩) (some v) =
        some (.validatorError msg) ∧
    validate (.ok ⟨p ++ f :: rest, t⟩) (some v) ≠ some .closeError := by
  have h := streamLoop_append_pass (some v) p hp (f :: rest) t
    requiredFiles [] []
  simp only [List.nil_append] at h
  have hstep : streamLoop (some v) (f :: rest) t
      (foldMark requiredFiles p) (p.map Entry.name) (p.map Entry.name) =
      ⟨markObserved (foldMark requiredFiles p) f.name,
       p.map Entry.name ++ [f.name], p.map Entry.name ++ [f.name],
       some (.validatorError msg)⟩ := by
    simp [streamLoop, hookOf, hf]
  refine ⟨?_, ?_⟩ <;> simp [validate, validateRun, h, hstep]

/-- Witness for C10: a hook rejecting an entry whose close fails still
surfaces the hook's error, not `CloseError`. -/
theorem validate_hook_error_shadows_close_error_witness :
    validate (.ok ⟨[⟨"bad", false⟩], .eof⟩)
        (some fun g => if g.name == "bad" then some "rejected" else none) =
      some (.validatorError "rejected") :=
  (validate_hook_error_shadows_close_error [] ⟨"bad", false⟩ [] .eof
    (fun g => if g.name == "bad" then some "rejected" else none) "rejected"
    (by decide) (by decide) (by decide)).1

/-- C5: an archive whose stream fails mid-stream with a read error makes
`validate` return `ReadError` (when the entries before the failure are
processed cleanly), and — with no hypotheses at all — a stream ending in a
read error can never produce a `MissingRequiredFileError` outcome, since
the required-entry check is only reached after a clean end-of-stream. -/
theorem validate_read_error_aborts (es : List Entry)
    (hook : Option FileValidator) (hp : ∀ g ∈ es, Passes hook g) :
    validate (.ok ⟨es, .readErr⟩) hook = some .readError ∧
    ∀ (es2 : List Entry) (hook2 : Option FileValidator) (k : String),
      validate (.ok ⟨es2, .readErr⟩) hook2 ≠
        some (.missingRequiredFileError k) := by
  constructor
  · have h := streamLoop_append_pass hook es hp [] .readErr
      requiredFiles [] []
    rw [List.append_nil] at h
    simp [validate, validateRun, h, streamLoop]
  · intro es2 hook2 k hcontra
    cases hs : (streamLoop hook2 es2 .readErr requiredFiles [] []).err with
    | none =>
      exact absurd (streamLoop_err_none_eof _ _ _ _ _ _ hs) (by decide)
    | some e =>
      simp only [validate, validateRun, hs] at hcontra
      have hne := streamLoop_err_ne_missing hook2 es2 .readErr
        requiredFiles [] [] k
      rw [hs] at hne
      exact hne (by rw [hcontra])

/-- Witness for C5: a truncated archive that yields `fastly.toml` and then
fails mid-stream produces `ReadError`, never a missing-file report. -/
theorem validate_read_error_aborts_witness :
    validate (.ok ⟨[⟨"fastly.toml", true⟩], .readErr⟩) none =
        some .readError ∧
    validate (.ok ⟨[⟨"fastly.toml", true⟩], .readErr⟩) none ≠
        some (.missingRequiredFileError "main.wasm") := by
  have h := validate_read_error_aborts [⟨"fastly.toml", true⟩] none (by decide)
  exact ⟨h.1, h.2 [⟨"fastly.toml", true⟩] none "main.wasm"⟩

/-- C8 counterexample: two runs of `validate` on the same empty archive,
differing only in the map iteration order of the final required-file check
(which Go does not specify), report different missing names: the outcome
of a second run need not repeat the first run's reported name. -/
theorem validateOrd_two_runs_differ :
    List.Perm ["fastly.toml", "main.wasm"] ["main.wasm", "fastly.toml"] ∧
    validateOrd (.ok ⟨[], .eof⟩) none ["fastly.toml", "main.wasm"] =
        some (.missingRequiredFileError "fastly.toml") ∧
    validateOrd (.ok ⟨[], .eof⟩) none ["main.wasm", "fastly.toml"] =
        some (.missingRequiredFileError "main.wasm") :=
  ⟨List.Perm.swap _ _ _, rfl, rfl⟩

/-- C8 (amended): validating the same archive twice with the same hook
yields the same outcome kind, whatever map iteration orders the two runs
use for the required-file check; the reported missing name itself may
differ between runs when more than one required entry is missing. -/
theorem validateOrd_kind_run_independent (src : OpenResult)
    (hook : Option FileValidator) (o1 o2 : List String) (h : o1.Perm o2) :
    resKind (validateOrd src hook o1) = resKind (validateOrd src hook o2) := by
  cases src with
  | openFail => rfl
  | unarchiveFail => rfl
  | ok a =>
    simp only [validateOrd]
    cases hs : (streamLoop hook a.entries a.term requiredFiles [] []).err with
    | some e => rfl
    | none =>
      rw [resKind_checkRequiredOrd, resKind_checkRequiredOrd]
      exact if_congr
        ⟨fun hh k hk => hh k (h.mem_iff.mpr hk),
         fun hh k hk => hh k (h.mem_iff.mp hk)⟩ rfl rfl

/-- Witness for the amended C8: the two iteration orders of the map keys
give outcomes of the same kind on the empty archive. -/
theorem validateOrd_kind_run_independent_witness :
    resKind (validateOrd (.ok ⟨[], .eof⟩) none
        ["fastly.toml", "main.wasm"]) =
      resKind (validateOrd (.ok ⟨[], .eof⟩) none
        ["main.wasm", "fastly.toml"]) :=
  validateOrd_kind_run_independent (.ok ⟨[], .eof⟩) none
    ["fastly.toml", "main.wasm"] ["main.wasm", "fastly.toml"]
    (List.Perm.swap _ _ _)

end FastlyValidate
